import Mathlib

/-!
Verification development for StaticBoostObjectPool
(src/static_boost_object_pool.cpp).

The repository provides a custom chunk allocator, `StaticUserAllocator`,
backing a `boost::object_pool<Thing>` with a single static 64-byte block,
plus a demo `main`.  The allocator and the `Thing` value type are embedded
directly from the source.  The slot-pool layer (`boost::object_pool`'s
construct/destroy/free-list machinery) is third-party code not present in
the repository, so it is modelled from the specification (section 4.2),
as noted on each such definition.
-/

/-- Source line 49: `#define STATIC_POOL_CAPACITY 6`. -/
def STATIC_POOL_CAPACITY : Nat := 6

/-- Source line 54: `#define REQUIRED_SIZE 64`. -/
def REQUIRED_SIZE : Nat := 64

/-- Address of `static_block` (source line 56); offsets are relative to it. -/
def staticBlockBase : Nat := 0

/-- Source line 58: `static bool StaticUserAllocator_full = false;` —
the initial value of the process-wide exhaustion flag. -/
def StaticUserAllocator_full_init : Bool := false

/-- Outcome of one call to `StaticUserAllocator::malloc`: a granted block
address, a `nullptr` refusal, or process termination via `exit(code)`. -/
inductive MallocResult where
  | grant (addr : Nat)
  | nullptr
  | fatalExit (code : Nat)
deriving DecidableEq, Repr

namespace StaticUserAllocator

/-- Source lines 77–101, `StaticUserAllocator::malloc`: given the
requested size and the current value of the `StaticUserAllocator_full`
flag, returns the call's outcome and the new flag value.  If the flag is
clear, a request of exactly `REQUIRED_SIZE` is granted the static block
and sets the flag; any other size calls `exit(1)`.  If the flag is set,
the call returns `nullptr` unconditionally. -/
def malloc (s : Nat) (full : Bool) : MallocResult × Bool :=
  if full then (.nullptr, full)
  else if s ≠ REQUIRED_SIZE then (.fatalExit 1, full)
  else (.grant staticBlockBase, true)

/-- Source lines 103–106, `StaticUserAllocator::free`: the static array
cannot be freed, so the call does nothing — the flag is returned
unchanged. -/
def free (_block : Nat) (full : Bool) : Bool := full

end StaticUserAllocator

/-- One call to the chunk allocator: `malloc` with a requested size, or
`free` of a block address. -/
inductive AllocOp where
  | malloc (s : Nat)
  | free (b : Nat)
deriving DecidableEq, Repr

/-- The value of the `StaticUserAllocator_full` flag after a sequence of
allocator calls starting from flag value `full`. -/
def allocFlagAfter : List AllocOp → Bool → Bool
  | [], full => full
  | .malloc s :: ops, full => allocFlagAfter ops (StaticUserAllocator.malloc s full).2
  | .free b :: ops, full => allocFlagAfter ops (StaticUserAllocator.free b full)

/-- The number of successful block grants over a sequence of allocator
calls starting from flag value `full`. -/
def allocGrants : List AllocOp → Bool → Nat
  | [], _ => 0
  | .malloc s :: ops, full =>
    match StaticUserAllocator.malloc s full with
    | (.grant _, full') => 1 + allocGrants ops full'
    | (_, full') => allocGrants ops full'
  | .free b :: ops, full => allocGrants ops (StaticUserAllocator.free b full)

/-- Source lines 36–45: `Thing` holds a single `int p`; the constructor
`Thing(int i)` stores `i` in `p`. -/
structure Thing where
  p : Int
deriving DecidableEq, Repr

/-- `Thing(int i) : p(i)` — source line 43. -/
def Thing.mkInt (i : Int) : Thing := ⟨i⟩

/-- Modelled from the spec (§4.2): `slot_size` is the value type's size
rounded up to its alignment requirement; `Thing` holds one `int`, so its
size and alignment coincide and `slot_size` is `sizeof(Thing)`. -/
def slotSize : Nat := 4

/-- Modelled from the spec (§4.2): slot `i` lives at
`chunk_base + i * slot_size`; the acquired chunk is sliced into
`Capacity` slots. -/
def sliceSlots (base : Nat) : List Nat :=
  (List.range STATIC_POOL_CAPACITY).map (fun i => base + i * slotSize)

/-- Modelled from the spec (§4.2): the state of the Slot Pool layer
(`boost::object_pool`, not in the repository): the Free List of free slot
addresses, the occupied slots with their stored values, and whether the
one chunk has been acquired and sliced.  The process-wide allocator flag
is NOT part of this state: it is shared by all pools and threaded
separately. -/
structure Pool where
  freeList : List Nat
  occupied : List (Nat × Thing)
  acquired : Bool
deriving DecidableEq, Repr

/-- A freshly constructed pool: nothing acquired, no slots. -/
def Pool.fresh : Pool := ⟨[], [], false⟩

/-- A failure of a Slot Pool operation: a fatal abort propagated from the
chunk allocator (`exit(code)`), or a contract-precondition violation
(misuse) on `destroy`. -/
inductive PoolErr where
  | fatal (code : Nat)
  | misuse
deriving DecidableEq, Repr

/-- Modelled from the spec (§4.2, `construct`): if the Free List is
non-empty, pop one address and construct `Thing(i)` in place there.  If it
is empty and the chunk is not yet acquired, ask the Bounded Chunk Source
for the block; a grant is sliced into slots seeding the Free List and the
first slot is used, a refusal is the exhaustion signal (`none`), and a
fatal mismatch propagates as a fatal condition.  If the Free List is
empty and the chunk is acquired, return the exhaustion signal. -/
def Pool.construct (p : Pool) (i : Int) (full : Bool) :
    Except PoolErr (Option Nat × Pool × Bool) :=
  match p.freeList with
  | a :: rest =>
    .ok (some a, { p with freeList := rest, occupied := (a, Thing.mkInt i) :: p.occupied }, full)
  | [] =>
    if p.acquired then .ok (none, p, full)
    else
      match StaticUserAllocator.malloc REQUIRED_SIZE full with
      | (.grant base, full') =>
        match sliceSlots base with
        | a :: rest =>
          .ok (some a, { freeList := rest, occupied := (a, Thing.mkInt i) :: p.occupied,
                         acquired := true }, full')
        | [] => .ok (none, { p with acquired := true }, full')
      | (.nullptr, full') => .ok (none, p, full')
      | (.fatalExit c, _) => .error (.fatal c)

/-- Modelled from the spec (§4.2, `destroy`): requires the handle to refer
to a currently occupied slot (otherwise the misuse is rejected: `none`);
destructs the value, marks the slot free and pushes its address onto the
Free List. -/
def Pool.destroy (p : Pool) (a : Nat) : Option Pool :=
  if (p.occupied.lookup a).isSome then
    some { p with freeList := a :: p.freeList,
                  occupied := p.occupied.filter (fun q => q.1 != a) }
  else none

/-- Reading the value stored in an occupied slot. -/
def Pool.read (p : Pool) (a : Nat) : Option Thing := p.occupied.lookup a

/-- Modelled from the spec (§4.2, teardown): when the pool is released,
each still-occupied slot has its value destructed; the result lists the
destructor invocations (slot address and value destructed) in the
implementation-chosen order. -/
def Pool.teardown (p : Pool) : List (Nat × Thing) := p.occupied

/-- One Slot Pool request: construct a `Thing` from an `int`, or destroy
the slot at an address. -/
inductive PoolOp where
  | construct (i : Int)
  | destroy (a : Nat)
deriving DecidableEq, Repr

/-- Run a sequence of Slot Pool requests, threading the pool state and
the process-wide allocator flag. -/
def runPool : List PoolOp → Pool → Bool → Except PoolErr (Pool × Bool)
  | [], p, full => .ok (p, full)
  | .construct i :: ops, p, full =>
    match p.construct i full with
    | .ok (_, p', full') => runPool ops p' full'
    | .error e => .error e
  | .destroy a :: ops, p, full =>
    match p.destroy a with
    | some p' => runPool ops p' full
    | none => .error .misuse

/-- Run a sequence of `construct` calls, collecting each call's returned
handle (`some` address or the `none` exhaustion signal). -/
def runConstructs : List Int → Pool → Bool → Except PoolErr (List (Option Nat) × Pool × Bool)
  | [], p, full => .ok ([], p, full)
  | i :: is, p, full =>
    match p.construct i full with
    | .ok (r, p', full') =>
      match runConstructs is p' full' with
      | .ok (rs, q, f) => .ok (r :: rs, q, f)
      | .error e => .error e
    | .error e => .error e

/-- Destroy a list of slots in order, failing on the first misuse. -/
def destroyAll : List Nat → Pool → Option Pool
  | [], p => some p
  | a :: as, p => (p.destroy a).bind (destroyAll as)

/-! ## Helper lemmas about the chunk allocator -/

/-- Once the flag is set, `malloc` refuses unconditionally. -/
theorem malloc_full_eq (s : Nat) :
    StaticUserAllocator.malloc s true = (.nullptr, true) := rfl

/-- The flag, once set, is never cleared by any sequence of calls. -/
theorem allocFlagAfter_true (ops : List AllocOp) : allocFlagAfter ops true = true := by
  induction ops with
  | nil => rfl
  | cons op ops ih =>
    cases op with
    | malloc s => simpa [allocFlagAfter, StaticUserAllocator.malloc] using ih
    | free b => simpa [allocFlagAfter, StaticUserAllocator.free] using ih

/-- With the flag set, no sequence of calls ever obtains a grant. -/
theorem allocGrants_true (ops : List AllocOp) : allocGrants ops true = 0 := by
  induction ops with
  | nil => rfl
  | cons op ops ih =>
    cases op with
    | malloc s => simpa [allocGrants, StaticUserAllocator.malloc] using ih
    | free b => simpa [allocGrants, StaticUserAllocator.free] using ih

/-- From any flag state, at most one grant occurs over any call sequence. -/
theorem allocGrants_le_one (ops : List AllocOp) (full : Bool) : allocGrants ops full ≤ 1 := by
  induction ops generalizing full with
  | nil => exact Nat.zero_le 1
  | cons op ops ih =>
    cases op with
    | malloc s =>
      cases full with
      | true => rw [allocGrants_true]; exact Nat.zero_le 1
      | false =>
        by_cases h : s = REQUIRED_SIZE
        · subst h
          simp [allocGrants, StaticUserAllocator.malloc, allocGrants_true]
        · simpa [allocGrants, StaticUserAllocator.malloc, h] using ih false
    | free b => simpa [allocGrants, StaticUserAllocator.free] using ih full

/-! ## Claim theorems about the chunk allocator -/

/-- C1: on the first call to `StaticUserAllocator::malloc` (flag still at
its initial value), a request of exactly `REQUIRED_SIZE = 64` marks the
allocator exhausted and returns the static block's address; any other
requested size makes the process terminate immediately via `exit(1)`,
a non-zero exit status. -/
theorem malloc_first_call (s : Nat) :
    (s = REQUIRED_SIZE →
      StaticUserAllocator.malloc s StaticUserAllocator_full_init =
        (.grant staticBlockBase, true)) ∧
    (s ≠ REQUIRED_SIZE →
      StaticUserAllocator.malloc s StaticUserAllocator_full_init =
        (.fatalExit 1, StaticUserAllocator_full_init) ∧ (1 : Nat) ≠ 0) := by
  constructor
  · intro h; subst h; rfl
  · intro h
    exact ⟨by simp [StaticUserAllocator.malloc, StaticUserAllocator_full_init, h], one_ne_zero⟩

theorem malloc_first_call_witness :
    (StaticUserAllocator.malloc 64 StaticUserAllocator_full_init =
      (.grant staticBlockBase, true)) ∧
    (StaticUserAllocator.malloc 48 StaticUserAllocator_full_init =
      (.fatalExit 1, StaticUserAllocator_full_init) ∧ (1 : Nat) ≠ 0) :=
  ⟨(malloc_first_call 64).1 (by decide), (malloc_first_call 48).2 (by decide)⟩

/-- C2: after the first successful acquisition (a granted first call),
every later call — after any further sequence of allocator calls —
returns a `nullptr` refusal and leaves the flag unchanged, regardless of
the requested size. -/
theorem malloc_after_grant (s₀ r : Nat) (f : Bool)
    (h : StaticUserAllocator.malloc s₀ StaticUserAllocator_full_init = (.grant r, f)) :
    ∀ (ops : List AllocOp) (s : Nat),
      StaticUserAllocator.malloc s (allocFlagAfter ops f) =
        (.nullptr, allocFlagAfter ops f) := by
  have hf : f = true := by
    by_cases h64 : s₀ = REQUIRED_SIZE
    · subst h64
      have := congrArg Prod.snd h
      simpa [StaticUserAllocator.malloc, StaticUserAllocator_full_init] using this.symm
    · simp [StaticUserAllocator.malloc, StaticUserAllocator_full_init, h64] at h
  subst hf
  intro ops s
  rw [allocFlagAfter_true]
  exact malloc_full_eq s

theorem malloc_after_grant_witness :
    StaticUserAllocator.malloc 7 (allocFlagAfter [.malloc 64, .free 0] true) =
      (.nullptr, allocFlagAfter [.malloc 64, .free 0] true) :=
  malloc_after_grant 64 staticBlockBase true (by decide) [.malloc 64, .free 0] 7

/-- C5: exactly one grant of the Reserved Block can ever occur: `free` is
a no-op on the flag, no call sequence starting from the exhausted state
obtains a grant or clears the flag, and any call sequence from any state
obtains at most one grant. -/
theorem reserved_block_granted_once :
    (∀ (b : Nat) (full : Bool), StaticUserAllocator.free b full = full) ∧
    (∀ ops : List AllocOp, allocGrants ops true = 0) ∧
    (∀ ops : List AllocOp, allocFlagAfter ops true = true) ∧
    (∀ (ops : List AllocOp) (full : Bool), allocGrants ops full ≤ 1) :=
  ⟨fun _ _ => rfl, allocGrants_true, allocFlagAfter_true, allocGrants_le_one⟩

/-! ## Helper lemmas about the Slot Pool -/

/-- A fresh pool facing an already-set process-wide flag: its very first
chunk request is refused and the pool is left unchanged. -/
theorem construct_fresh_full (i : Int) :
    Pool.fresh.construct i true = .ok (none, Pool.fresh, true) := rfl

/-- A fresh pool facing an already-set process-wide flag can never
construct anything: every request returns the exhaustion signal. -/
theorem runConstructs_fresh_full (vs : List Int) :
    runConstructs vs Pool.fresh true =
      .ok (List.replicate vs.length none, Pool.fresh, true) := by
  induction vs with
  | nil => rfl
  | cons i is ih => simp [runConstructs, construct_fresh_full, ih, List.replicate_succ]

/-- C10: the exhaustion state is one process-wide flag: with it set,
`malloc` refuses with `nullptr` and leaves the flag set for every
requested size, the fatal path is never taken (the size is not checked),
at most one grant occurs over any call sequence from any state, and a
second, independent pool whose first acquire happens after the flag is
set can never construct any object. -/
theorem shared_flag_starves_second_pool :
    (∀ s : Nat, StaticUserAllocator.malloc s true = (.nullptr, true)) ∧
    (∀ (s c : Nat), (StaticUserAllocator.malloc s true).1 ≠ .fatalExit c) ∧
    (∀ (ops : List AllocOp) (full : Bool), allocGrants ops full ≤ 1) ∧
    (∀ vs : List Int, runConstructs vs Pool.fresh true =
      .ok (List.replicate vs.length none, Pool.fresh, true)) :=
  ⟨fun _ => rfl, fun _ _ => by simp [malloc_full_eq], allocGrants_le_one,
   runConstructs_fresh_full⟩

/-- The first construct on a fresh pool with a clear flag acquires and
slices the static block and occupies slot 0. -/
theorem construct_fresh (i : Int) :
    Pool.fresh.construct i false =
      .ok (some 0, ⟨[4, 8, 12, 16, 20], [(0, Thing.mkInt i)], true⟩, true) := rfl

/-- Runs of `construct` on an already-acquired pool: the first
`freeList.length` requests pop free slots in order, the rest return the
exhaustion signal; the flag and acquired state are unchanged. -/
theorem runConstructs_acquired (vs : List Int) (p : Pool) (full : Bool)
    (h : p.acquired = true) :
    ∃ q : Pool, runConstructs vs p full =
        .ok ((p.freeList.take vs.length).map some ++
              List.replicate (vs.length - p.freeList.length) none, q, full) ∧
      q.freeList = p.freeList.drop vs.length ∧ q.acquired = true := by
  induction vs generalizing p with
  | nil => exact ⟨p, by simp [runConstructs], by simp, h⟩
  | cons i is ih =>
    match hfl : p.freeList with
    | a :: rest =>
      obtain ⟨q, hrun, hq, hacq⟩ :=
        ih { p with freeList := rest, occupied := (a, Thing.mkInt i) :: p.occupied }
          (by simpa using h)
      refine ⟨q, ?_, ?_, hacq⟩
      · simp only [runConstructs, Pool.construct, hfl, hrun]
        simp [hfl, Nat.succ_sub_succ]
      · simpa [hfl] using hq
    | [] =>
      obtain ⟨q, hrun, hq, hacq⟩ := ih p h
      refine ⟨q, ?_, ?_, hacq⟩
      · simp only [runConstructs, Pool.construct, hfl, h, if_true, hrun]
        simp [hfl, List.replicate_succ]
      · simpa [hfl] using hq

/-- Runs of `construct` on an acquired pool with an empty Free List:
every request is the exhaustion signal and nothing changes. -/
theorem runConstructs_exhausted (vs : List Int) (p : Pool) (full : Bool)
    (h : p.acquired = true) (hfl : p.freeList = []) :
    runConstructs vs p full = .ok (List.replicate vs.length none, p, full) := by
  induction vs with
  | nil => rfl
  | cons i is ih =>
    simp only [runConstructs, Pool.construct, hfl, h, if_true, ih]
    simp [List.replicate_succ]

/-- The slot-disjointness relation: two slot addresses are distinct and
their `slotSize`-wide extents do not overlap. -/
def SlotApart (a b : Nat) : Prop :=
  a ≠ b ∧ (a + slotSize ≤ b ∨ b + slotSize ≤ a)

instance : ∀ a b, Decidable (SlotApart a b) := fun a b => by
  unfold SlotApart; infer_instance

/-- C3: any sequence of at most `Capacity = 6` construct calls on a fresh
pool (no intervening destroy) all succeed, and the returned slot
addresses are pairwise distinct and non-overlapping. -/
theorem constructs_up_to_capacity (vs : List Int)
    (h : vs.length ≤ STATIC_POOL_CAPACITY) :
    ∃ (addrs : List Nat) (q : Pool) (f : Bool),
      runConstructs vs Pool.fresh StaticUserAllocator_full_init =
        .ok (addrs.map some, q, f) ∧
      addrs.length = vs.length ∧ addrs.Pairwise SlotApart := by
  match vs with
  | [] => exact ⟨[], Pool.fresh, StaticUserAllocator_full_init, rfl, rfl, List.Pairwise.nil⟩
  | i :: is =>
    have hlen : is.length ≤ 5 := by
      simp only [List.length_cons, STATIC_POOL_CAPACITY] at h; omega
    obtain ⟨q, hrun, hq, hacq⟩ :=
      runConstructs_acquired is ⟨[4, 8, 12, 16, 20], [(0, Thing.mkInt i)], true⟩ true rfl
    refine ⟨0 :: [4, 8, 12, 16, 20].take is.length, q, true, ?_, ?_, ?_⟩
    · have h5 : is.length - 5 = 0 := Nat.sub_eq_zero_of_le hlen
      simp only [StaticUserAllocator_full_init, runConstructs, construct_fresh, hrun]
      simp [h5]
    · simp [List.length_take, Nat.min_eq_left hlen]
    · have hsub : List.Sublist (0 :: [4, 8, 12, 16, 20].take is.length) [0, 4, 8, 12, 16, 20] :=
        List.Sublist.cons₂ 0 (List.take_sublist _ _)
      exact List.Pairwise.sublist hsub (by decide)

theorem constructs_up_to_capacity_witness :
    ∃ (addrs : List Nat) (q : Pool) (f : Bool),
      runConstructs [1, 2, 3, 4, 5, 6] Pool.fresh StaticUserAllocator_full_init =
        .ok (addrs.map some, q, f) ∧
      addrs.length = ([1, 2, 3, 4, 5, 6] : List Int).length ∧
      addrs.Pairwise SlotApart :=
  constructs_up_to_capacity [1, 2, 3, 4, 5, 6] (by decide)

/-- C4: after any `Capacity = 6` construct calls on a fresh pool with no
destroy, every further construct returns the exhaustion signal (`none`
inside a normal `.ok` result — no crash, no fatal error) and leaves the
pool unchanged. -/
theorem construct_when_full (vs ws : List Int)
    (h : vs.length = STATIC_POOL_CAPACITY) :
    ∃ (rs : List (Option Nat)) (q : Pool) (f : Bool),
      runConstructs vs Pool.fresh StaticUserAllocator_full_init = .ok (rs, q, f) ∧
      runConstructs ws q f = .ok (List.replicate ws.length none, q, f) := by
  match vs with
  | [] => simp [STATIC_POOL_CAPACITY] at h
  | i :: is =>
    have his : is.length = 5 := by
      simp only [List.length_cons, STATIC_POOL_CAPACITY] at h; omega
    obtain ⟨q, hrun, hq, hacq⟩ :=
      runConstructs_acquired is ⟨[4, 8, 12, 16, 20], [(0, Thing.mkInt i)], true⟩ true rfl
    have hqfl : q.freeList = [] := by
      rw [hq, his]; rfl
    refine ⟨some 0 :: (([4, 8, 12, 16, 20].take is.length).map some ++
        List.replicate (is.length - 5) none), q, true, ?_,
      runConstructs_exhausted ws q true hacq hqfl⟩
    simp only [StaticUserAllocator_full_init, runConstructs, construct_fresh, hrun]
    rfl

theorem construct_when_full_witness :
    ∃ (rs : List (Option Nat)) (q : Pool) (f : Bool),
      runConstructs [1, 2, 3, 4, 5, 6] Pool.fresh StaticUserAllocator_full_init =
        .ok (rs, q, f) ∧
      runConstructs [7, 8] q f =
        .ok (List.replicate ([7, 8] : List Int).length none, q, f) :=
  construct_when_full [1, 2, 3, 4, 5, 6] [7, 8] (by decide)

/-- Each successful `destroy` lengthens the Free List by one and changes
neither the acquired state nor the flag threading. -/
theorem destroyAll_freeList (hs : List Nat) (p p' : Pool)
    (h : destroyAll hs p = some p') :
    p'.freeList.length = p.freeList.length + hs.length ∧ p'.acquired = p.acquired := by
  induction hs generalizing p with
  | nil =>
    simp only [destroyAll, Option.some.injEq] at h
    subst h; simp
  | cons a as ih =>
    simp only [destroyAll, Option.bind_eq_some] at h
    obtain ⟨p₁, h₁, h₂⟩ := h
    have hp₁ : p₁.freeList = a :: p.freeList ∧ p₁.acquired = p.acquired := by
      unfold Pool.destroy at h₁
      split at h₁
      · cases h₁; exact ⟨rfl, rfl⟩
      · cases h₁
    obtain ⟨hf, ha⟩ := hp₁
    obtain ⟨hl, hacq⟩ := ih p₁ h₂
    constructor
    · rw [hl, hf]; simp; omega
    · rw [hacq, ha]

/-- C6: take a full pool (chunk acquired, empty Free List) and free `k`
slots via successful destroys; then among any sequence of further
construct calls, exactly the first `min (calls) k` succeed (popping freed
slots) and every call beyond the `k`-th returns the exhaustion signal
again. -/
theorem destroy_then_construct (p p' : Pool) (hs : List Nat) (vs : List Int)
    (full : Bool) (hacq : p.acquired = true) (hfull : p.freeList = [])
    (hdes : destroyAll hs p = some p') :
    ∃ (addrs : List Nat) (q : Pool),
      runConstructs vs p' full =
        .ok (addrs.map some ++ List.replicate (vs.length - hs.length) none, q, full) ∧
      addrs.length = min vs.length hs.length := by
  obtain ⟨hlen, hacq'⟩ := destroyAll_freeList hs p p' hdes
  rw [hfull] at hlen
  simp only [List.length_nil, Nat.zero_add] at hlen
  obtain ⟨q, hrun, hq, _⟩ := runConstructs_acquired vs p' full (hacq' ▸ hacq)
  refine ⟨p'.freeList.take vs.length, q, ?_, ?_⟩
  · rw [hrun, hlen]
  · rw [List.length_take, hlen]

theorem destroy_then_construct_witness :
    ∃ (addrs : List Nat) (q : Pool),
      runConstructs [9, 10, 11]
          ⟨[4, 0], [(20, ⟨6⟩), (16, ⟨5⟩), (12, ⟨4⟩), (8, ⟨3⟩)], true⟩ true =
        .ok (addrs.map some ++
              List.replicate (([9, 10, 11] : List Int).length - ([0, 4] : List Nat).length)
                none, q, true) ∧
      addrs.length = min ([9, 10, 11] : List Int).length ([0, 4] : List Nat).length :=
  destroy_then_construct
    ⟨[], [(20, ⟨6⟩), (16, ⟨5⟩), (12, ⟨4⟩), (8, ⟨3⟩), (4, ⟨2⟩), (0, ⟨1⟩)], true⟩
    ⟨[4, 0], [(20, ⟨6⟩), (16, ⟨5⟩), (12, ⟨4⟩), (8, ⟨3⟩)], true⟩
    [0, 4] [9, 10, 11] true rfl rfl (by decide)

/-! ## Well-formedness of pool states -/

/-- Case analysis of a successful `construct`: pop a free slot, refuse
while exhausted (pool unchanged), be starved by an already-set flag, or
acquire and slice the block on the very first request. -/
theorem construct_cases (p : Pool) (i : Int) (full : Bool) (r : Option Nat)
    (p' : Pool) (full' : Bool) (h : p.construct i full = .ok (r, p', full')) :
    (∃ a rest, p.freeList = a :: rest ∧ r = some a ∧ full' = full ∧
      p' = { p with freeList := rest, occupied := (a, Thing.mkInt i) :: p.occupied }) ∨
    (p.freeList = [] ∧ p.acquired = true ∧ r = none ∧ p' = p ∧ full' = full) ∨
    (p.freeList = [] ∧ p.acquired = false ∧ full = true ∧ r = none ∧ p' = p ∧
      full' = true) ∨
    (p.freeList = [] ∧ p.acquired = false ∧ full = false ∧ r = some 0 ∧ full' = true ∧
      p' = ⟨[4, 8, 12, 16, 20], (0, Thing.mkInt i) :: p.occupied, true⟩) := by
  match hfl : p.freeList with
  | a :: rest =>
    simp only [Pool.construct, hfl, Except.ok.injEq, Prod.mk.injEq] at h
    exact .inl ⟨a, rest, rfl, h.1.symm, h.2.2.symm, h.2.1.symm⟩
  | [] =>
    by_cases hacq : p.acquired = true
    · simp only [Pool.construct, hfl, hacq, if_true, Except.ok.injEq, Prod.mk.injEq] at h
      exact .inr (.inl ⟨rfl, hacq, h.1.symm, h.2.1.symm, h.2.2.symm⟩)
    · have hacq' : p.acquired = false := by
        cases hp : p.acquired
        · rfl
        · exact absurd hp hacq
      cases hfu : full
      · subst hfu
        have hm : StaticUserAllocator.malloc REQUIRED_SIZE false =
            (.grant staticBlockBase, true) := rfl
        have hs : sliceSlots staticBlockBase = [0, 4, 8, 12, 16, 20] := rfl
        simp only [Pool.construct, hfl, hacq', Bool.false_eq_true, if_false, hm, hs,
          Except.ok.injEq, Prod.mk.injEq] at h
        refine .inr (.inr (.inr ⟨rfl, hacq', rfl, h.1.symm, h.2.2.symm, ?_⟩))
        rw [← h.2.1]
      · subst hfu
        have hm : StaticUserAllocator.malloc REQUIRED_SIZE true = (.nullptr, true) := rfl
        simp only [Pool.construct, hfl, hacq', Bool.false_eq_true, if_false, hm,
          Except.ok.injEq, Prod.mk.injEq] at h
        exact .inr (.inr (.inl ⟨rfl, hacq', rfl, h.1.symm, h.2.1.symm, h.2.2.symm⟩))

/-- Case analysis of a successful `destroy`: the handle was occupied, its
address rejoins the Free List and its entry leaves the occupied set. -/
theorem destroy_cases (p : Pool) (a : Nat) (p' : Pool) (h : p.destroy a = some p') :
    (p.occupied.lookup a).isSome = true ∧
    p' = { p with freeList := a :: p.freeList,
                  occupied := p.occupied.filter (fun q => q.1 != a) } := by
  unfold Pool.destroy at h
  split at h
  · next hl => cases h; exact ⟨hl, rfl⟩
  · cases h

/-- Well-formedness invariant of a pool state: occupied-slot addresses
are distinct, the Free List has no duplicates, no address is both free
and occupied, and before acquisition the pool holds no slots at all. -/
def Pool.WF (p : Pool) : Prop :=
  (p.occupied.map Prod.fst).Nodup ∧ p.freeList.Nodup ∧
  (∀ a ∈ p.freeList, a ∉ p.occupied.map Prod.fst) ∧
  (p.acquired = false → p.freeList = [] ∧ p.occupied = [])

instance : ∀ p : Pool, Decidable p.WF := fun p => by
  unfold Pool.WF; infer_instance

theorem WF_fresh : Pool.fresh.WF := by
  refine ⟨List.nodup_nil, List.nodup_nil, ?_, fun _ => ⟨rfl, rfl⟩⟩
  intro a ha
  cases ha

/-- A successful lookup means the key is among the occupied addresses. -/
theorem lookup_isSome_mem (l : List (Nat × Thing)) (a : Nat)
    (h : (l.lookup a).isSome = true) : a ∈ l.map Prod.fst := by
  induction l with
  | nil => simp [List.lookup] at h
  | cons q l ih =>
    obtain ⟨k, v⟩ := q
    by_cases hak : a = k
    · subst hak; exact List.mem_cons_self _ _
    · have hbeq : (a == k) = false := beq_eq_false_iff_ne.mpr hak
      simp only [List.lookup, hbeq] at h
      exact List.mem_cons_of_mem _ (ih h)

/-- Filtering out one key leaves lookups of any other key unchanged. -/
theorem lookup_filter_ne (l : List (Nat × Thing)) (a b : Nat) (hab : a ≠ b) :
    (l.filter (fun q => q.1 != b)).lookup a = l.lookup a := by
  induction l with
  | nil => rfl
  | cons q l ih =>
    obtain ⟨k, v⟩ := q
    by_cases hkb : k = b
    · subst hkb
      have hak : (a == k) = false := beq_eq_false_iff_ne.mpr hab
      simp [List.filter_cons, List.lookup, hak, ih]
    · by_cases hak : a = k
      · subst hak
        simp [List.filter_cons, hkb, List.lookup, beq_self_eq_true]
      · have hak' : (a == k) = false := beq_eq_false_iff_ne.mpr hak
        simp [List.filter_cons, hkb, List.lookup, hak', ih]

/-- The filtered-out key is gone from the occupied addresses. -/
theorem not_mem_filter_keys (l : List (Nat × Thing)) (a : Nat) :
    a ∉ (l.filter (fun q => q.1 != a)).map Prod.fst := by
  intro h
  obtain ⟨q, hq, hqa⟩ := List.mem_map.mp h
  have hpred := List.of_mem_filter hq
  rw [hqa] at hpred
  simp at hpred

/-- The sliced slot addresses left free after the first construct. -/
theorem slots_nodup : ([4, 8, 12, 16, 20] : List Nat).Nodup := by decide

/-- `construct` preserves well-formedness. -/
theorem WF_construct (p : Pool) (i : Int) (full : Bool) (r : Option Nat)
    (p' : Pool) (full' : Bool) (hWF : p.WF)
    (h : p.construct i full = .ok (r, p', full')) : p'.WF := by
  obtain ⟨hnd, hfnd, hdisj, hun⟩ := hWF
  rcases construct_cases p i full r p' full' h with
    ⟨a, rest, hfl, hr, hf, hp⟩ | ⟨hfl, hacq, hr, hp, hf⟩ |
    ⟨hfl, hacq, hfull, hr, hp, hf⟩ | ⟨hfl, hacq, hfull, hr, hf, hp⟩
  · subst hp
    rw [hfl] at hfnd hdisj
    have hfnd' := List.nodup_cons.mp hfnd
    refine ⟨?_, hfnd'.2, ?_, ?_⟩
    · exact List.nodup_cons.mpr ⟨hdisj a (List.mem_cons_self a rest), hnd⟩
    · intro b hb
      have hbne : b ≠ a := fun hba => hfnd'.1 (hba ▸ hb)
      have hbocc := hdisj b (List.mem_cons_of_mem a hb)
      simp only [List.map_cons, List.mem_cons, not_or]
      exact ⟨hbne, hbocc⟩
    · intro hacq'
      have hcontra := (hun hacq').1
      rw [hfl] at hcontra
      cases hcontra
  · subst hp; exact ⟨hnd, hfnd, hdisj, hun⟩
  · subst hp; exact ⟨hnd, hfnd, hdisj, hun⟩
  · have hocc := (hun hacq).2
    subst hp
    rw [hocc]
    refine ⟨by simp, slots_nodup, ?_, ?_⟩
    · intro b hb
      simp only [List.map_cons, List.map_nil, List.mem_singleton]
      intro hb0
      subst hb0
      simp at hb
    · intro hfalse
      simp at hfalse

/-- `destroy` preserves well-formedness. -/
theorem WF_destroy (p : Pool) (a : Nat) (p' : Pool) (hWF : p.WF)
    (h : p.destroy a = some p') : p'.WF := by
  obtain ⟨hnd, hfnd, hdisj, hun⟩ := hWF
  obtain ⟨hl, hp⟩ := destroy_cases p a p' h
  subst hp
  have hamem : a ∈ p.occupied.map Prod.fst := lookup_isSome_mem _ _ hl
  have hkeys : List.Sublist ((p.occupied.filter (fun q => q.1 != a)).map Prod.fst)
      (p.occupied.map Prod.fst) :=
    List.Sublist.map _ (List.filter_sublist _)
  refine ⟨hnd.sublist hkeys, ?_, ?_, ?_⟩
  · exact List.nodup_cons.mpr ⟨fun ha => hdisj a ha hamem, hfnd⟩
  · intro b hb
    rcases List.mem_cons.mp hb with hba | hbf
    · subst hba; exact not_mem_filter_keys _ _
    · intro hbm
      exact hdisj b hbf (hkeys.subset hbm)
  · intro hacq
    obtain ⟨-, hocc⟩ := hun hacq
    rw [hocc] at hl
    simp [List.lookup] at hl

/-- Any run of pool requests from a well-formed state ends well-formed. -/
theorem WF_runPool (ops : List PoolOp) (p : Pool) (full : Bool) (q : Pool) (f : Bool)
    (hWF : p.WF) (h : runPool ops p full = .ok (q, f)) : q.WF := by
  induction ops generalizing p full with
  | nil =>
    simp only [runPool, Except.ok.injEq, Prod.mk.injEq] at h
    rw [← h.1]; exact hWF
  | cons op ops ih =>
    cases op with
    | construct i =>
      cases hc : p.construct i full with
      | ok res =>
        obtain ⟨r, p', full'⟩ := res
        rw [runPool, hc] at h
        exact ih p' full' (WF_construct p i full r p' full' hWF hc) h
      | error e => rw [runPool, hc] at h; cases h
    | destroy a =>
      cases hd : p.destroy a with
      | some p' =>
        rw [runPool, hd] at h
        exact ih p' full (WF_destroy p a p' hWF hd) h
      | none => rw [runPool, hd] at h; cases h

/-- C7: when a pool reached by any successful request sequence is torn
down, each still-occupied slot has its value destructed exactly once, and
already-freed slots are not destructed at all. -/
theorem teardown_destructs_each_once (ops : List PoolOp) (p : Pool) (f : Bool)
    (h : runPool ops Pool.fresh StaticUserAllocator_full_init = .ok (p, f)) :
    ∀ a : Nat, (p.teardown.map Prod.fst).count a =
      if a ∈ p.occupied.map Prod.fst then 1 else 0 := by
  have hWF := WF_runPool ops Pool.fresh StaticUserAllocator_full_init p f WF_fresh h
  intro a
  simp only [Pool.teardown]
  by_cases hmem : a ∈ p.occupied.map Prod.fst
  · rw [if_pos hmem]
    exact List.count_eq_one_of_mem hWF.1 hmem
  · rw [if_neg hmem]
    exact List.count_eq_zero_of_not_mem hmem

theorem teardown_destructs_each_once_witness :
    (((⟨[0, 8, 12, 16, 20], [(4, ⟨2⟩)], true⟩ : Pool).teardown.map Prod.fst).count 4 =
      if 4 ∈ (⟨[0, 8, 12, 16, 20], [(4, ⟨2⟩)], true⟩ : Pool).occupied.map Prod.fst
      then 1 else 0) ∧
    (((⟨[0, 8, 12, 16, 20], [(4, ⟨2⟩)], true⟩ : Pool).teardown.map Prod.fst).count 0 =
      if 0 ∈ (⟨[0, 8, 12, 16, 20], [(4, ⟨2⟩)], true⟩ : Pool).occupied.map Prod.fst
      then 1 else 0) :=
  ⟨teardown_destructs_each_once [.construct 1, .construct 2, .destroy 0] _ true rfl 4,
   teardown_destructs_each_once [.construct 1, .construct 2, .destroy 0] _ true rfl 0⟩

/-- A fresh in-place construction is immediately readable: the slot holds
`Thing(i)`. -/
theorem read_construct (p : Pool) (i : Int) (full : Bool) (a : Nat)
    (p' : Pool) (full' : Bool)
    (h : p.construct i full = .ok (some a, p', full')) :
    p'.read a = some (Thing.mkInt i) := by
  rcases construct_cases p i full (some a) p' full' h with
    ⟨b, rest, hfl, hr, hf, hp⟩ | ⟨_, _, hr, _, _⟩ | ⟨_, _, _, hr, _, _⟩ |
    ⟨hfl, hacq, hfull, hr, hf, hp⟩
  · obtain rfl : a = b := by injection hr
    rw [hp]
    simp [Pool.read, List.lookup, beq_self_eq_true]
  · cases hr
  · cases hr
  · obtain rfl : a = 0 := by injection hr
    rw [hp]
    simp [Pool.read, List.lookup, beq_self_eq_true]

/-- Reads of an occupied slot survive any successful run that never
destroys that slot. -/
theorem read_preserved_run (ops : List PoolOp) (p : Pool) (full : Bool)
    (q : Pool) (f : Bool) (a : Nat) (t : Thing) (hWF : p.WF)
    (hread : p.read a = some t) (hops : PoolOp.destroy a ∉ ops)
    (h : runPool ops p full = .ok (q, f)) : q.read a = some t := by
  induction ops generalizing p full with
  | nil =>
    simp only [runPool, Except.ok.injEq, Prod.mk.injEq] at h
    rw [← h.1]; exact hread
  | cons op ops ih =>
    have hops' : PoolOp.destroy a ∉ ops := fun hm => hops (List.mem_cons_of_mem _ hm)
    cases op with
    | construct i =>
      cases hc : p.construct i full with
      | ok res =>
        obtain ⟨r, p', full'⟩ := res
        rw [runPool, hc] at h
        have hread' : p'.read a = some t := by
          rcases construct_cases p i full r p' full' hc with
            ⟨b, rest, hfl, hr, hf, hp⟩ | ⟨_, _, _, hp, _⟩ | ⟨_, _, _, _, hp, _⟩ |
            ⟨hfl0, hacq0, _, _, _, hp⟩
          · have hamem : a ∈ p.occupied.map Prod.fst := by
              apply lookup_isSome_mem
              rw [show p.occupied.lookup a = p.read a from rfl, hread]
              rfl
            have hbfree : b ∈ p.freeList := hfl ▸ List.mem_cons_self b rest
            have hba : (a == b) = false :=
              beq_eq_false_iff_ne.mpr (fun hab => hWF.2.2.1 b hbfree (hab ▸ hamem))
            rw [hp]
            simpa [Pool.read, List.lookup, hba] using hread
          · rw [hp]; exact hread
          · rw [hp]; exact hread
          · obtain ⟨-, hocc⟩ := hWF.2.2.2 hacq0
            rw [show p.read a = p.occupied.lookup a from rfl, hocc] at hread
            cases hread
        exact ih p' full' (WF_construct p i full r p' full' hWF hc) hread' hops' h
      | error e => rw [runPool, hc] at h; cases h
    | destroy b =>
      cases hd : p.destroy b with
      | some p' =>
        rw [runPool, hd] at h
        have hba : a ≠ b := fun hab => hops (hab ▸ List.mem_cons_self _ _)
        obtain ⟨hl, hp⟩ := destroy_cases p b p' hd
        have hread' : p'.read a = some t := by
          rw [hp]
          show (p.occupied.filter (fun q => q.1 != b)).lookup a = some t
          rw [lookup_filter_ne p.occupied a b hba]
          exact hread
        exact ih p' full (WF_destroy p b p' hWF hd) hread' hops' h
      | none => rw [runPool, hd] at h; cases h

/-- C8: the round trip — construct a value from `i` in a well-formed
pool, then run any further requests that do not destroy the new slot:
reading the slot back still yields `Thing(i)` unchanged. -/
theorem construct_read_round_trip (p : Pool) (i : Int) (full : Bool) (a : Nat)
    (p' : Pool) (full' : Bool) (ops : List PoolOp) (q : Pool) (f : Bool)
    (hWF : p.WF) (hcon : p.construct i full = .ok (some a, p', full'))
    (hops : PoolOp.destroy a ∉ ops) (hrun : runPool ops p' full' = .ok (q, f)) :
    q.read a = some (Thing.mkInt i) :=
  read_preserved_run ops p' full' q f a (Thing.mkInt i)
    (WF_construct p i full (some a) p' full' hWF hcon)
    (read_construct p i full a p' full' hcon) hops hrun

theorem construct_read_round_trip_witness :
    (⟨[4, 12, 16, 20], [(8, ⟨8⟩), (0, ⟨42⟩)], true⟩ : Pool).read 0 =
      some (Thing.mkInt 42) :=
  construct_read_round_trip Pool.fresh 42 StaticUserAllocator_full_init 0
    ⟨[4, 8, 12, 16, 20], [(0, ⟨42⟩)], true⟩ true
    [.construct 7, .construct 8, .destroy 4]
    ⟨[4, 12, 16, 20], [(8, ⟨8⟩), (0, ⟨42⟩)], true⟩ true
    (by decide) rfl (by decide) rfl

/-- C9: `destroy` is guarded by its occupancy precondition: it succeeds
precisely on handles referring to currently occupied slots of this pool,
and any other handle is rejected with a no-value result rather than
silently accepted. -/
theorem destroy_requires_occupied (p : Pool) (a : Nat) :
    (p.destroy a).isSome = (p.occupied.lookup a).isSome := by
  unfold Pool.destroy
  split
  · next hc => rw [hc]; rfl
  · next hc =>
    have hfalse : (p.occupied.lookup a).isSome = false := by
      cases hiso : (p.occupied.lookup a).isSome
      · rfl
      · exact absurd hiso hc
    rw [hfalse]; rfl
